import Mathlib

/-!
Verification of the chanx library: a growable ring buffer with an optional
soft capacity ceiling and drop-newest discard policy, and the unbounded
channel pump built on top of it.

The ring buffer model follows ringbufferof.go (RingBufferOf[T]) and the
generic RingBuffer[T]; the two share all operational code and differ only in
their constructors and max-size setters, so a single state type carries both.
Go slices become Lean lists, the Go zero value becomes `default` of an
`Inhabited` type, and the discard callback becomes a boolean flag
(`onDiscards`, modelling `onDiscards != nil`) together with the list of
arguments the callback was invoked with, returned by `write`.
-/

namespace Chanx

/-- Minimum ring buffer capacity, per the minBufferSize constant. -/
def minBufferSize : Nat := 2

/-- State of a ring buffer (RingBufferOf[T] / RingBuffer[T]).
The field maxSize plays the role of maxBufSize in the RingBufferOf variant;
onDiscards records whether a discard callback is installed. -/
structure RingBuf (T : Type) where
  buf : List T
  initialSize : Nat
  size : Nat
  maxSize : Nat
  discards : Nat
  r : Nat
  w : Nat
  onDiscards : Bool
deriving Repr, DecidableEq

variable {T : Type}

/-- Logical length, per RingBufferOf.Len. -/
def RingBuf.len (s : RingBuf T) : Nat :=
  if s.r = s.w then 0
  else if s.w > s.r then s.w - s.r
  else s.size - s.r + s.w

/-- Emptiness test, per RingBufferOf.IsEmpty. -/
def RingBuf.isEmpty (s : RingBuf T) : Bool :=
  s.r == s.w

/-- Read, per RingBufferOf.Read: returns the possibly-updated state and
some value on success, none standing for the ErrIsEmpty return. -/
def RingBuf.read [Inhabited T] (s : RingBuf T) : RingBuf T × Option T :=
  if s.r = s.w then (s, none)
  else
    let v := s.buf.getD s.r default
    let r1 := s.r + 1
    let r2 := if r1 = s.size then 0 else r1
    ({ s with r := r2 }, some v)

/-- Pop, per RingBufferOf.Pop: calls Read and panics on ErrIsEmpty;
none models the panic. -/
def RingBuf.pop [Inhabited T] (s : RingBuf T) : Option (T × RingBuf T) :=
  match s.read with
  | (s1, some v) => some (v, s1)
  | (_, none) => none

/-- Peek, per RingBufferOf.Peek: none models the panic on an empty buffer. -/
def RingBuf.peek [Inhabited T] (s : RingBuf T) : Option T :=
  if s.r = s.w then none else some (s.buf.getD s.r default)

/-- Growth, per RingBufferOf.grow: the new backing array is zero-filled and
the logical contents are copied to its front starting at r, wrapping. -/
def RingBuf.grow [Inhabited T] (s : RingBuf T) : RingBuf T :=
  let size1 := if s.size < 1024 then s.size * 2 else s.size + s.size / 4
  let content := s.buf.drop s.r ++ s.buf.take s.r
  let buf1 := (content ++ List.replicate size1 default).take size1
  { s with r := 0, w := s.size, size := size1, buf := buf1 }

/-- Discard condition of Write: maxSize (maxBufSize) positive and Len at or
beyond it. -/
def RingBuf.writeDrops (s : RingBuf T) : Prop :=
  0 < s.maxSize ∧ s.maxSize ≤ s.len

instance (s : RingBuf T) : Decidable s.writeDrops := by
  unfold RingBuf.writeDrops; exact inferInstance

/-- Write, per RingBufferOf.Write. Besides the new state it returns the list
of values the onDiscards callback was invoked with during the call. -/
def RingBuf.write [Inhabited T] (s : RingBuf T) (v : T) : RingBuf T × List T :=
  if s.writeDrops then
    ({ s with discards := s.discards + 1 }, if s.onDiscards then [v] else [])
  else
    let buf1 := s.buf.set s.w v
    let w1 := s.w + 1
    let w2 := if w1 = s.size then 0 else w1
    let s1 : RingBuf T := { s with buf := buf1, w := w2 }
    (if w2 = s.r then s1.grow else s1, [])

/-- Reset, per RingBufferOf.Reset. -/
def RingBuf.reset [Inhabited T] (s : RingBuf T) : RingBuf T :=
  { s with r := 0, w := 0, size := s.initialSize,
           buf := List.replicate s.initialSize default }

/-- Max-size setter of the generic RingBuffer[T] (SetMaxSize): 0 removes the
ceiling, a value at least minBufferSize replaces it, anything else is
ignored; the resulting ceiling is returned. -/
def RingBuf.setMaxSize (s : RingBuf T) (n : Int) : RingBuf T × Nat :=
  let s1 := if n = 0 then { s with maxSize := 0 }
            else if (minBufferSize : Int) ≤ n then { s with maxSize := n.toNat }
            else s
  (s1, s1.maxSize)

/-- Max-size setter of RingBufferOf (SetMaxCapacity): 0 removes the ceiling,
any positive n sets initialSize + n, negative n is ignored; the resulting
ceiling (MaxBufSize) is returned. -/
def RingBuf.setMaxCapacity (s : RingBuf T) (n : Int) : RingBuf T × Nat :=
  let s1 := if n = 0 then { s with maxSize := 0 }
            else if 0 < n then { s with maxSize := s.initialSize + n.toNat }
            else s
  (s1, s1.maxSize)

/-- Callback installation, per SetOnDiscards: a nil argument (fnSet false)
is ignored. -/
def RingBuf.setOnDiscards (s : RingBuf T) (fnSet : Bool) : RingBuf T :=
  if fnSet then { s with onDiscards := true } else s

/-- Constructor of the generic RingBuffer[T] (NewRingBuffer): initial sizes
below minBufferSize are clamped up to it; the optional max argument takes
effect only when at least minBufferSize. -/
def NewRingBuffer (T : Type) [Inhabited T] (initialSize : Int)
    (maxBufferSize : Option Int) : RingBuf T :=
  let isize : Int := if initialSize < (minBufferSize : Int) then (minBufferSize : Int)
                     else initialSize
  let n : Nat := isize.toNat
  let maxSize : Nat :=
    match maxBufferSize with
    | some m => if (minBufferSize : Int) ≤ m then m.toNat else 0
    | none => 0
  { buf := List.replicate n default, initialSize := n, size := n,
    maxSize := maxSize, discards := 0, r := 0, w := 0, onDiscards := false }

/-- Constructor of RingBufferOf (NewRingBufferOf): panics (none) when the
initial size is not positive, clamps 1 to 2, and a positive max argument
yields a ceiling of argument plus the clamped initial size. -/
def NewRingBufferOf (T : Type) [Inhabited T] (initialSize : Int)
    (maxBufCapacity : Option Int) : Option (RingBuf T) :=
  if initialSize ≤ 0 then none
  else
    let isize : Int := if initialSize = 1 then 2 else initialSize
    let n : Nat := isize.toNat
    let maxBufSize : Nat :=
      match maxBufCapacity with
      | some m => if 0 < m then (m + isize).toNat else 0
      | none => 0
    some { buf := List.replicate n default, initialSize := n, size := n,
           maxSize := maxBufSize, discards := 0, r := 0, w := 0,
           onDiscards := false }

/-- Well-formedness of a ring buffer state: backing array length matches
size, both indices are in range, and size and initialSize respect the
minimum of 2. -/
def RingBuf.wf (s : RingBuf T) : Prop :=
  s.buf.length = s.size ∧ s.r < s.size ∧ s.w < s.size ∧
  2 ≤ s.size ∧ 2 ≤ s.initialSize

instance (s : RingBuf T) : Decidable s.wf := by
  unfold RingBuf.wf; exact inferInstance

/-- Backing array rotated so that the slot at index r comes first. -/
def RingBuf.rot (s : RingBuf T) : List T :=
  s.buf.drop s.r ++ s.buf.take s.r

/-- Logical contents of the buffer: the len values stored from r onward,
wrapping around the backing array. -/
def RingBuf.contents (s : RingBuf T) : List T :=
  s.rot.take s.len

/-- Merge of two lists preserving the relative order of each: the third list
is an interleaving of the first two. Used to state that the input sequence
splits into the delivered subsequence and the discarded subsequence. -/
inductive Interleave {α : Type} : List α → List α → List α → Prop
| nil : Interleave [] [] []
| keep (x : α) {xs ys zs : List α} :
    Interleave xs ys zs → Interleave (x :: xs) ys (x :: zs)
| toss (x : α) {xs ys zs : List α} :
    Interleave xs ys zs → Interleave xs (x :: ys) (x :: zs)

/-- States reachable from a freshly constructed ring buffer through the
public operations. Peek does not change the state and is omitted; a Pop on
an empty buffer panics and so reaches no state. -/
inductive Reachable {T : Type} [Inhabited T] : RingBuf T → Prop
| newRB (isize : Int) (marg : Option Int) : Reachable (NewRingBuffer T isize marg)
| newOf (isize : Int) (marg : Option Int) (s : RingBuf T)
    (h : NewRingBufferOf T isize marg = some s) : Reachable s
| write (s : RingBuf T) (v : T) (h : Reachable s) : Reachable (s.write v).1
| read (s : RingBuf T) (h : Reachable s) : Reachable (s.read).1
| pop (s : RingBuf T) (v : T) (s1 : RingBuf T) (h : Reachable s)
    (hp : s.pop = some (v, s1)) : Reachable s1
| reset (s : RingBuf T) (h : Reachable s) : Reachable s.reset
| setMaxSize (s : RingBuf T) (n : Int) (h : Reachable s) :
    Reachable (s.setMaxSize n).1
| setMaxCapacity (s : RingBuf T) (n : Int) (h : Reachable s) :
    Reachable (s.setMaxCapacity n).1
| setOnDiscards (s : RingBuf T) (b : Bool) (h : Reachable s) :
    Reachable (s.setOnDiscards b)

/-- One public ring buffer operation, for stating trace properties. -/
inductive Op (T : Type) where
| write (v : T)
| read
| pop
| peek
| reset
| setMaxSize (n : Int)
| setMaxCapacity (n : Int)
| setOnDiscards (b : Bool)

/-- Effect of one operation on the state. An emptiness panic of pop leaves
no successor state; the state component is kept unchanged there. -/
def applyOp [Inhabited T] (s : RingBuf T) : Op T → RingBuf T
| .write v => (s.write v).1
| .read => (s.read).1
| .pop => match s.pop with
  | some (_, s1) => s1
  | none => s
| .peek => s
| .reset => s.reset
| .setMaxSize n => (s.setMaxSize n).1
| .setMaxCapacity n => (s.setMaxCapacity n).1
| .setOnDiscards b => s.setOnDiscards b

/-- Runs a list of operations from a state. -/
def runOps [Inhabited T] (s : RingBuf T) : List (Op T) → RingBuf T
| [] => s
| op :: ops => runOps (applyOp s op) ops

/-!
The pump of processOf (equivalently process): a labelled transition system
over the states of the single worker goroutine, the two bounded channels and
the ring buffer. Producer sends, consumer receives and the pump run as
separate transitions, so every interleaving of the Go scheduler is a choice
sequence here. The pump control modes mirror the program points of processOf:
direct is the outer select, directHeld holds the value received in the outer
select before the non-blocking forward attempt, buffering is the inner loop
select, drain the final drain loop and done the point after close(out).
The check "atomic bufCount > 0" of the outer loop is modelled
nondeterministically (the direct flag of decideHeld), which covers every
behaviour of the code: a value is forwarded directly only when the output
queue has room, and otherwise written to the buffer.
-/
inductive PumpMode (T : Type) where
| direct
| directHeld (v : T)
| buffering
| drain
| done

/-- Whole-system state: producer-side pending values, the In channel queue
and closed flag, the pump mode and ring buffer, the Out channel queue and
closed flag, and the consumer-received values. The fields discarded and
processed are ghost accumulators: values dropped by Write, and values whose
fate (kept or discarded) has been decided by the pump. -/
structure Sys (T : Type) where
  producers : List T
  inQ : List T
  inClosed : Bool
  mode : PumpMode T
  rb : RingBuf T
  outQ : List T
  outClosed : Bool
  received : List T
  discarded : List T
  processed : List T

/-- One scheduling choice: which thread moves, and for the pump, which
select case fires. -/
inductive Choice where
| produce
| closeIn
| consume
| recvDirect
| decideHeld (direct : Bool)
| recvInner
| closedDirect
| closedInner
| sendInner
| exitInner
| drainSend
| finish

/-- Writes v into the ring buffer, recording a ghost discard when the write
drops it, marks v as processed, and moves to mode m. -/
def writeToBuf [Inhabited T] (s : Sys T) (v : T) (m : PumpMode T) : Sys T :=
  { s with rb := (s.rb.write v).1,
           discarded := if s.rb.writeDrops then s.discarded ++ [v] else s.discarded,
           processed := s.processed ++ [v],
           mode := m }

/-- One transition of the system; none when the choice is not enabled. -/
def step [Inhabited T] (inCap outCap : Nat) (c : Choice) (s : Sys T) :
    Option (Sys T) :=
  match c with
  | .produce =>
    match s.producers with
    | [] => none
    | v :: ps =>
      if s.inClosed then none
      else if s.inQ.length < inCap then
        some { s with producers := ps, inQ := s.inQ ++ [v] }
      else none
  | .closeIn =>
    match s.producers with
    | [] => if s.inClosed then none else some { s with inClosed := true }
    | _ :: _ => none
  | .consume =>
    match s.outQ with
    | [] => none
    | v :: out1 => some { s with outQ := out1, received := s.received ++ [v] }
  | .recvDirect =>
    match s.mode, s.inQ with
    | .direct, v :: in1 => some { s with inQ := in1, mode := .directHeld v }
    | _, _ => none
  | .decideHeld direct =>
    match s.mode with
    | .directHeld v =>
      if direct ∧ s.outQ.length < outCap then
        some { s with outQ := s.outQ ++ [v], mode := .direct,
                      processed := s.processed ++ [v] }
      else
        some (writeToBuf s v .buffering)
    | _ => none
  | .recvInner =>
    match s.mode, s.inQ with
    | .buffering, v :: in1 => some (writeToBuf { s with inQ := in1 } v .buffering)
    | _, _ => none
  | .closedDirect =>
    match s.mode, s.inClosed, s.inQ with
    | .direct, true, [] => some { s with mode := .drain }
    | _, _, _ => none
  | .closedInner =>
    match s.mode, s.inClosed, s.inQ with
    | .buffering, true, [] => some { s with mode := .drain }
    | _, _, _ => none
  | .sendInner =>
    match s.mode with
    | .buffering =>
      if s.outQ.length < outCap then
        match s.rb.pop with
        | some (v, rb1) =>
          some { s with outQ := s.outQ ++ [v],
                        rb := if rb1.isEmpty ∧ rb1.initialSize < rb1.size
                              then rb1.reset else rb1 }
        | none => none
      else none
    | _ => none
  | .exitInner =>
    match s.mode with
    | .buffering => if s.rb.isEmpty then some { s with mode := .direct } else none
    | _ => none
  | .drainSend =>
    match s.mode with
    | .drain =>
      if s.outQ.length < outCap then
        match s.rb.pop with
        | some (v, rb1) => some { s with outQ := s.outQ ++ [v], rb := rb1 }
        | none => none
      else none
    | _ => none
  | .finish =>
    match s.mode with
    | .drain =>
      if s.rb.isEmpty then
        some { s with rb := s.rb.reset, outClosed := true, mode := .done }
      else none
    | _ => none

/-- Runs a schedule; choices that are not enabled are skipped. -/
def runSys [Inhabited T] (inCap outCap : Nat) (s : Sys T) : List Choice → Sys T
| [] => s
| c :: cs =>
  match step inCap outCap c s with
  | some s1 => runSys inCap outCap s1 cs
  | none => runSys inCap outCap s cs

/-- Initial system state: the whole input sequence pending on the producer
side, everything else empty, the pump in direct mode. -/
def initSys (inputs : List T) (rb0 : RingBuf T) : Sys T :=
  { producers := inputs, inQ := [], inClosed := false, mode := .direct,
    rb := rb0, outQ := [], outClosed := false, received := [],
    discarded := [], processed := [] }

/-- Value held by the pump between the outer-select receive and the forward
decision. -/
def heldList {T : Type} : PumpMode T → List T
| .directHeld v => [v]
| _ => []

/-- System invariant: the input splits as processed, then held, then queued,
then unsent values; the processed values interleave into kept (received,
then Out queue, then buffer) and discarded; the buffer is well-formed and
empty whenever the pump is in direct mode; mode bookkeeping for closure. -/
def SysInv (inputs : List T) (s : Sys T) : Prop :=
  inputs = s.processed ++ heldList s.mode ++ s.inQ ++ s.producers
  ∧ Interleave (s.received ++ s.outQ ++ s.rb.contents) s.discarded s.processed
  ∧ s.rb.wf
  ∧ (s.inClosed = true → s.producers = [])
  ∧ (s.mode = .drain ∨ s.mode = .done → s.inClosed = true ∧ s.inQ = [])
  ∧ (s.outClosed = true → s.mode = .done)
  ∧ (s.mode = .done → s.rb.contents = [])
  ∧ ((s.mode = .direct ∨ (∃ v, s.mode = .directHeld v)) → s.rb.contents = [])

/-- Setting an index at or beyond the taken prefix leaves the prefix alone. -/
theorem take_set_le {α : Type} (v : α) :
    ∀ (L : List α) (k m : Nat), m ≤ k → (L.set k v).take m = L.take m := by
  intro L
  induction L with
  | nil => intro k m _; simp
  | cons a t ih =>
    intro k m hmk
    cases k with
    | zero =>
      have : m = 0 := Nat.le_zero.mp hmk
      subst this; simp
    | succ k =>
      cases m with
      | zero => simp
      | succ m => simp [List.set, ih k m (Nat.succ_le_succ_iff.mp hmk)]

/-- Setting an index inside the taken prefix commutes with taking. -/
theorem take_set_lt {α : Type} (v : α) :
    ∀ (L : List α) (k m : Nat), k < m → (L.set k v).take m = (L.take m).set k v := by
  intro L
  induction L with
  | nil => intro k m _; simp
  | cons a t ih =>
    intro k m hkm
    cases k with
    | zero =>
      cases m with
      | zero => omega
      | succ m => simp [List.set]
    | succ k =>
      cases m with
      | zero => omega
      | succ m => simp [List.set, ih k m (Nat.succ_lt_succ_iff.mp hkm)]

/-- Taking one slot past a just-set index appends the new value to the prefix. -/
theorem take_succ_set {α : Type} (L : List α) (k : Nat) (v : α) (h : k < L.length) :
    (L.set k v).take (k + 1) = L.take k ++ [v] := by
  rw [List.take_succ, take_set_le v L k k le_rfl]
  have : (L.set k v)[k]? = some v := by
    simp [List.getElem?_set, h]
  rw [this]
  rfl

/-- Setting the last slot of a list replaces it. -/
theorem set_last_eq_take_append {α : Type} (L : List α) (k : Nat) (v : α)
    (h : k + 1 = L.length) : L.set k v = L.take k ++ [v] := by
  have h1 : (L.set k v).take (k + 1) = L.take k ++ [v] :=
    take_succ_set L k v (by omega)
  have h2 : (L.set k v).take (k + 1) = L.set k v := by
    rw [h, ← List.length_set L k v, List.take_length]
  rw [← h2, h1]

theorem RingBuf.rot_length (s : RingBuf T) (h : s.wf) : s.rot.length = s.size := by
  obtain ⟨hb, hr, _, _, _⟩ := h
  simp [RingBuf.rot, hb]
  omega

theorem RingBuf.len_lt_size (s : RingBuf T) (h : s.wf) : s.len < s.size := by
  obtain ⟨_, hr, hw, hs, _⟩ := h
  unfold RingBuf.len
  split_ifs <;> omega

theorem RingBuf.len_eq_zero_iff (s : RingBuf T) (h : s.wf) :
    s.len = 0 ↔ s.r = s.w := by
  obtain ⟨_, hr, hw, hs, _⟩ := h
  unfold RingBuf.len
  split_ifs <;> omega

/-- Writing the incoming value at index w edits the rotated view at
position len. -/
theorem RingBuf.rot_set_w (s : RingBuf T) (v : T) (h : s.wf) :
    (s.buf.set s.w v).drop s.r ++ (s.buf.set s.w v).take s.r
      = s.rot.set s.len v := by
  obtain ⟨hb, hr, hw, hs, _⟩ := h
  have hdl : (s.buf.drop s.r).length = s.size - s.r := by simp [hb]
  rcases le_or_lt s.r s.w with hrw | hwr
  · have hlen : s.len = s.w - s.r := by
      unfold RingBuf.len; split_ifs <;> omega
    rw [hlen, List.drop_set, if_neg (by omega), take_set_le v _ _ _ hrw]
    unfold RingBuf.rot
    rw [List.set_append_left _ v (by omega)]
  · have hlen : s.len = s.size - s.r + s.w := by
      unfold RingBuf.len; split_ifs <;> omega
    rw [hlen, List.drop_set, if_pos hwr, take_set_lt v _ _ _ hwr]
    unfold RingBuf.rot
    rw [List.set_append_right _ v (by omega)]
    rw [hdl]
    congr 2
    omega

/-- Taking back the original prefix after padding with replicate. -/
theorem take_append_replicate_take {α : Type} (X : List α) (n m : Nat) (d : α)
    (hX : X.length = n) (hnm : n ≤ m) :
    ((X ++ List.replicate m d).take m).take n = X := by
  rw [List.take_take, inf_eq_left.mpr hnm,
      List.take_append_of_le_length (by omega), ← hX, List.take_length]

theorem RingBuf.grow_size_gt (s : RingBuf T) [Inhabited T] (h1 : 1 ≤ s.size) :
    s.size < s.grow.size := by
  simp only [RingBuf.grow]
  split_ifs <;> omega

theorem RingBuf.grow_len (s : RingBuf T) [Inhabited T] (h2 : 2 ≤ s.size) :
    s.grow.len = s.size := by
  simp only [RingBuf.grow, RingBuf.len]
  split_ifs <;> omega

theorem RingBuf.wf_grow (s : RingBuf T) [Inhabited T] (h : s.wf) : s.grow.wf := by
  have hrot := s.rot_length h
  obtain ⟨hb, hr, hw, hs, hi⟩ := h
  unfold RingBuf.wf RingBuf.grow
  refine ⟨?_, ?_, ?_, ?_, hi⟩ <;>
    simp [List.length_take, List.length_append, RingBuf.rot, hb] at * <;>
    split_ifs <;> omega

/-- Growth preserves the stored sequence: the contents of the grown buffer
are exactly the old backing array rotated to start at r. -/
theorem RingBuf.contents_grow (s : RingBuf T) [Inhabited T] (h : s.wf) :
    s.grow.contents = s.rot := by
  have hrot := s.rot_length h
  obtain ⟨hb, hr, hw, hs, hi⟩ := h
  unfold RingBuf.contents
  rw [RingBuf.grow_len s hs]
  show (s.grow.buf.drop s.grow.r ++ s.grow.buf.take s.grow.r).take s.size = s.rot
  simp only [RingBuf.grow]
  rw [List.drop_zero, List.take_zero, List.append_nil]
  exact take_append_replicate_take _ _ _ _ (by rw [← RingBuf.rot]; omega)
    (by split_ifs <;> omega)

theorem RingBuf.wf_write (s : RingBuf T) [Inhabited T] (v : T) (h : s.wf) :
    (s.write v).1.wf := by
  obtain ⟨hb, hr, hw, hs, hi⟩ := h
  unfold RingBuf.write
  by_cases hd : s.writeDrops
  · rw [if_pos hd]
    exact ⟨hb, hr, hw, hs, hi⟩
  · rw [if_neg hd]
    dsimp only
    by_cases hg : (if s.w + 1 = s.size then 0 else s.w + 1) = s.r
    · rw [if_pos hg]
      exact RingBuf.wf_grow _
        ⟨by simpa using hb, hr, by dsimp only; split_ifs <;> omega, hs, hi⟩
    · rw [if_neg hg]
      exact ⟨by simpa using hb, hr,
        by dsimp only; split_ifs at hg ⊢ <;> omega, hs, hi⟩

/-- A non-discarding write appends the incoming value to the logical
contents, growing the buffer when needed. -/
theorem RingBuf.contents_write (s : RingBuf T) [Inhabited T] (v : T) (h : s.wf)
    (hnd : ¬ s.writeDrops) : (s.write v).1.contents = s.contents ++ [v] := by
  have hrotlen := s.rot_length h
  have hlenlt := s.len_lt_size h
  have hset := s.rot_set_w v h
  obtain ⟨hb, hr, hw, hs, hi⟩ := h
  unfold RingBuf.write
  rw [if_neg hnd]
  dsimp only
  by_cases hg : (if s.w + 1 = s.size then 0 else s.w + 1) = s.r
  · rw [if_pos hg]
    set s1 : RingBuf T :=
      { s with buf := s.buf.set s.w v,
               w := if s.w + 1 = s.size then 0 else s.w + 1 } with hs1
    have hs1wf : s1.wf :=
      ⟨by simp [hs1, hb], hr, by simp only [hs1]; split_ifs <;> omega, hs, hi⟩
    rw [RingBuf.contents_grow s1 hs1wf]
    have h1 : s1.rot = s.rot.set s.len v := hset
    have hlen1 : s.len + 1 = s.size := by
      unfold RingBuf.len
      split_ifs at hg ⊢ <;> omega
    rw [h1]
    unfold RingBuf.contents
    exact set_last_eq_take_append _ _ _ (by omega)
  · rw [if_neg hg]
    set s1 : RingBuf T :=
      { s with buf := s.buf.set s.w v,
               w := if s.w + 1 = s.size then 0 else s.w + 1 } with hs1
    have h1 : s1.rot = s.rot.set s.len v := hset
    have h2 : s1.len = s.len + 1 := by
      simp only [hs1]
      unfold RingBuf.len
      dsimp only
      split_ifs at hg ⊢ <;> omega
    show s1.contents = _
    unfold RingBuf.contents
    rw [h1, h2]
    exact take_succ_set _ _ _ (by omega)

theorem RingBuf.write_drop_state (s : RingBuf T) [Inhabited T] (v : T)
    (hd : s.writeDrops) :
    (s.write v).1 = { s with discards := s.discards + 1 } ∧
    (s.write v).2 = (if s.onDiscards then [v] else []) := by
  unfold RingBuf.write
  rw [if_pos hd]
  exact ⟨rfl, rfl⟩

theorem RingBuf.write_store_events (s : RingBuf T) [Inhabited T] (v : T)
    (hnd : ¬ s.writeDrops) : (s.write v).2 = [] := by
  unfold RingBuf.write
  rw [if_neg hnd]

theorem RingBuf.write_frame (s : RingBuf T) [Inhabited T] (v : T) :
    (s.write v).1.maxSize = s.maxSize ∧
    (s.write v).1.initialSize = s.initialSize ∧
    (s.write v).1.onDiscards = s.onDiscards := by
  unfold RingBuf.write RingBuf.grow
  by_cases hd : s.writeDrops
  · rw [if_pos hd]; exact ⟨rfl, rfl, rfl⟩
  · rw [if_neg hd]
    dsimp only
    split_ifs <;> exact ⟨rfl, rfl, rfl⟩

theorem RingBuf.write_discards_of_not_drop (s : RingBuf T) [Inhabited T] (v : T)
    (hnd : ¬ s.writeDrops) : (s.write v).1.discards = s.discards := by
  unfold RingBuf.write RingBuf.grow
  rw [if_neg hnd]
  dsimp only
  split_ifs <;> rfl

theorem RingBuf.read_empty (s : RingBuf T) [Inhabited T] (h : s.r = s.w) :
    s.read = (s, none) := by
  unfold RingBuf.read
  rw [if_pos h]

theorem RingBuf.read_some (s : RingBuf T) [Inhabited T] (hne : s.r ≠ s.w) :
    s.read = ({ s with r := if s.r + 1 = s.size then 0 else s.r + 1 },
              some (s.buf.getD s.r default)) := by
  unfold RingBuf.read
  rw [if_neg hne]

theorem RingBuf.wf_read (s : RingBuf T) [Inhabited T] (h : s.wf) :
    (s.read).1.wf := by
  obtain ⟨hb, hr, hw, hs, hi⟩ := h
  by_cases hne : s.r = s.w
  · rw [RingBuf.read_empty s hne]
    exact ⟨hb, hr, hw, hs, hi⟩
  · rw [RingBuf.read_some s hne]
    exact ⟨hb, by dsimp only; split_ifs <;> omega, hw, hs, hi⟩

theorem RingBuf.len_read (s : RingBuf T) [Inhabited T] (h : s.wf)
    (hne : s.r ≠ s.w) : (s.read).1.len = s.len - 1 := by
  obtain ⟨hb, hr, hw, hs, hi⟩ := h
  rw [RingBuf.read_some s hne]
  unfold RingBuf.len
  dsimp only
  split_ifs <;> omega

/-- Reading from a non-empty buffer removes the head of the logical
contents and returns it. -/
theorem RingBuf.contents_read (s : RingBuf T) [Inhabited T] (h : s.wf)
    (hne : s.r ≠ s.w) :
    s.contents = s.buf.getD s.r default :: (s.read).1.contents := by
  have hlt := s.len_lt_size h
  have hlen' := s.len_read h hne
  obtain ⟨hb, hr, hw, hs, hi⟩ := h
  have hrb : s.r < s.buf.length := by omega
  have hlenpos : 1 ≤ s.len := by
    unfold RingBuf.len; split_ifs <;> omega
  have hget : s.buf.getD s.r default = s.buf[s.r] := List.getD_eq_getElem _ _ hrb
  have hrotcons : s.rot = s.buf[s.r] :: (s.buf.drop (s.r + 1) ++ s.buf.take s.r) := by
    unfold RingBuf.rot
    rw [List.drop_eq_getElem_cons hrb]
    rfl
  have hlhs : s.contents
      = s.buf[s.r] :: (s.buf.drop (s.r + 1) ++ s.buf.take s.r).take (s.len - 1) := by
    unfold RingBuf.contents
    rw [hrotcons]
    have : s.len = (s.len - 1) + 1 := by omega
    rw [this, List.take_succ_cons]
    simp only [Nat.add_sub_cancel]
  rw [hlhs, hget]
  congr 1
  rw [RingBuf.read_some s hne] at hlen' ⊢
  unfold RingBuf.contents
  rw [hlen']
  unfold RingBuf.rot
  dsimp only
  by_cases hr1 : s.r + 1 = s.size
  · rw [if_pos hr1]
    have hd1 : s.buf.drop (s.r + 1) = [] := List.drop_eq_nil_of_le (by omega)
    rw [hd1, List.drop_zero, List.take_zero, List.append_nil, List.nil_append,
        List.take_take]
    congr 1
    omega
  · rw [if_neg hr1]
    have htk : s.buf.take (s.r + 1) = s.buf.take s.r ++ [s.buf[s.r]] := by
      rw [List.take_succ, List.getElem?_eq_getElem hrb]
      rfl
    rw [htk, ← List.append_assoc]
    have hle : s.len - 1 ≤ (s.buf.drop (s.r + 1) ++ s.buf.take s.r).length := by
      simp only [List.length_append, List.length_drop, List.length_take]
      omega
    exact (List.take_append_of_le_length hle).symm

theorem RingBuf.contents_reset (s : RingBuf T) [Inhabited T] :
    (s.reset).contents = [] := by
  simp [RingBuf.reset, RingBuf.contents, RingBuf.len, RingBuf.rot]

theorem RingBuf.wf_reset (s : RingBuf T) [Inhabited T] (h : s.wf) :
    (s.reset).wf := by
  obtain ⟨hb, hr, hw, hs, hi⟩ := h
  exact ⟨by simp [RingBuf.reset], by dsimp only [RingBuf.reset]; omega,
    by dsimp only [RingBuf.reset]; omega, hi, hi⟩

theorem RingBuf.contents_length (s : RingBuf T) (h : s.wf) :
    s.contents.length = s.len := by
  have h1 := s.rot_length h
  have h2 := s.len_lt_size h
  unfold RingBuf.contents
  rw [List.length_take]
  omega

theorem RingBuf.contents_eq_nil_iff (s : RingBuf T) (h : s.wf) :
    s.contents = [] ↔ s.r = s.w := by
  rw [← s.len_eq_zero_iff h, ← s.contents_length h, List.length_eq_zero]

theorem RingBuf.isEmpty_iff (s : RingBuf T) : s.isEmpty = true ↔ s.r = s.w := by
  unfold RingBuf.isEmpty
  exact beq_iff_eq

theorem RingBuf.wf_setMaxSize (s : RingBuf T) (n : Int) (h : s.wf) :
    (s.setMaxSize n).1.wf := by
  obtain ⟨hb, hr, hw, hs, hi⟩ := h
  unfold RingBuf.setMaxSize
  dsimp only
  split_ifs <;> exact ⟨hb, hr, hw, hs, hi⟩

theorem RingBuf.wf_setMaxCapacity (s : RingBuf T) (n : Int) (h : s.wf) :
    (s.setMaxCapacity n).1.wf := by
  obtain ⟨hb, hr, hw, hs, hi⟩ := h
  unfold RingBuf.setMaxCapacity
  dsimp only
  split_ifs <;> exact ⟨hb, hr, hw, hs, hi⟩

theorem RingBuf.wf_setOnDiscards (s : RingBuf T) (b : Bool) (h : s.wf) :
    (s.setOnDiscards b).wf := by
  obtain ⟨hb, hr, hw, hs, hi⟩ := h
  unfold RingBuf.setOnDiscards
  split_ifs <;> exact ⟨hb, hr, hw, hs, hi⟩

theorem wf_NewRingBuffer [Inhabited T] (isize : Int) (marg : Option Int) :
    (NewRingBuffer T isize marg).wf := by
  simp only [NewRingBuffer, RingBuf.wf, minBufferSize]
  refine ⟨by simp, ?_, ?_, ?_, ?_⟩ <;> split_ifs <;> omega

theorem wf_NewRingBufferOf [Inhabited T] (isize : Int) (marg : Option Int)
    (s : RingBuf T) (h : NewRingBufferOf T isize marg = some s) : s.wf := by
  simp only [NewRingBufferOf] at h
  split_ifs at h with h0 h1
  · cases h
    simp only [RingBuf.wf]
    refine ⟨by simp, ?_, ?_, ?_, ?_⟩ <;> omega
  · cases h
    simp only [RingBuf.wf]
    refine ⟨by simp, ?_, ?_, ?_, ?_⟩ <;> omega

theorem RingBuf.pop_none_iff (s : RingBuf T) [Inhabited T] :
    s.pop = none ↔ s.r = s.w := by
  unfold RingBuf.pop
  by_cases h : s.r = s.w
  · rw [RingBuf.read_empty s h]
    simp [h]
  · rw [RingBuf.read_some s h]
    simp [h]

theorem RingBuf.pop_some (s : RingBuf T) [Inhabited T] (hne : s.r ≠ s.w) :
    s.pop = some (s.buf.getD s.r default, (s.read).1) := by
  unfold RingBuf.pop
  rw [RingBuf.read_some s hne]

theorem RingBuf.peek_none_iff (s : RingBuf T) [Inhabited T] :
    s.peek = none ↔ s.r = s.w := by
  unfold RingBuf.peek
  split_ifs with h <;> simp [h]

theorem interleave_keep_append {α : Type} {K D P : List α} (v : α)
    (h : Interleave K D P) : Interleave (K ++ [v]) D (P ++ [v]) := by
  induction h with
  | nil => exact .keep v .nil
  | keep x h ih => exact .keep x ih
  | toss x h ih => exact .toss x ih

theorem interleave_toss_append {α : Type} {K D P : List α} (v : α)
    (h : Interleave K D P) : Interleave K (D ++ [v]) (P ++ [v]) := by
  induction h with
  | nil => exact .toss v .nil
  | keep x h ih => exact .keep x ih
  | toss x h ih => exact .toss x ih

theorem RingBuf.contents_write_drop (s : RingBuf T) [Inhabited T] (v : T)
    (hd : s.writeDrops) : (s.write v).1.contents = s.contents := by
  rw [(s.write_drop_state v hd).1]
  rfl

/-- Every state reachable through the public interface is well-formed. -/
theorem wf_reachable [Inhabited T] (s : RingBuf T) (h : Reachable s) : s.wf := by
  induction h with
  | newRB isize marg => exact wf_NewRingBuffer isize marg
  | newOf isize marg s h => exact wf_NewRingBufferOf isize marg s h
  | write s v h ih => exact RingBuf.wf_write s v ih
  | read s h ih => exact RingBuf.wf_read s ih
  | pop s v s1 h hp ih =>
    have hne : s.r ≠ s.w := by
      intro he
      rw [(RingBuf.pop_none_iff s).mpr he] at hp
      cases hp
    rw [RingBuf.pop_some s hne] at hp
    simp only [Option.some.injEq, Prod.mk.injEq] at hp
    rw [← hp.2]
    exact RingBuf.wf_read s ih
  | reset s h ih => exact RingBuf.wf_reset s ih
  | setMaxSize s n h ih => exact RingBuf.wf_setMaxSize s n ih
  | setMaxCapacity s n h ih => exact RingBuf.wf_setMaxCapacity s n ih
  | setOnDiscards s b h ih => exact RingBuf.wf_setOnDiscards s b ih

/-- Invariant preservation for a buffered write entering the inner loop. -/
theorem sysInv_writeToBuf [Inhabited T] (inputs : List T) (s : Sys T) (v : T)
    (ha : inputs = s.processed ++ [v] ++ s.inQ ++ s.producers)
    (hint : Interleave (s.received ++ s.outQ ++ s.rb.contents) s.discarded
      s.processed)
    (hwf : s.rb.wf)
    (hic : s.inClosed = true → s.producers = [])
    (hocF : s.outClosed = false) :
    SysInv inputs (writeToBuf s v .buffering) := by
  refine ⟨?_, ?_, ?_, ?_, ?_, ?_, ?_, ?_⟩
  · simp only [writeToBuf, heldList]
    rw [ha]
    simp
  · by_cases hd : s.rb.writeDrops
    · simp only [writeToBuf, if_pos hd, RingBuf.contents_write_drop s.rb v hd]
      exact interleave_toss_append v hint
    · simp only [writeToBuf, if_neg hd, RingBuf.contents_write s.rb v hwf hd]
      have h1 := interleave_keep_append v hint
      simpa [List.append_assoc] using h1
  · exact RingBuf.wf_write s.rb v hwf
  · simpa [writeToBuf] using hic
  · simp [writeToBuf]
  · simp [writeToBuf, hocF]
  · simp [writeToBuf]
  · simp [writeToBuf, heldList]

/-- Preservation of the system invariant by every enabled transition. -/
theorem sysInv_step [Inhabited T] {inputs : List T} {inCap outCap : Nat}
    {c : Choice} {s s' : Sys T} (hinv : SysInv inputs s)
    (hstep : step inCap outCap c s = some s') : SysInv inputs s' := by
  obtain ⟨ha, hint, hwf, hic, hdm, hoc, hdone, hdirect⟩ := hinv
  cases c with
  | produce =>
    unfold step at hstep
    cases hp : s.producers with
    | nil => rw [hp] at hstep; cases hstep
    | cons v ps =>
      rw [hp] at hstep
      cases hcl : s.inClosed
      · rw [hcl] at hstep
        simp only [Bool.false_eq_true, if_false] at hstep
        split_ifs at hstep with hlen
        · cases hstep
          refine ⟨?_, hint, hwf, ?_, ?_, hoc, hdone, hdirect⟩
          · rw [ha, hp]; simp
          · simp [hcl]
          · intro h
            exact absurd ((hdm h).1) (by simp [hcl])
      · rw [hcl] at hstep
        simp at hstep
  | closeIn =>
    unfold step at hstep
    cases hp : s.producers with
    | nil =>
      rw [hp] at hstep
      cases hcl : s.inClosed
      · rw [hcl] at hstep
        simp only [Bool.false_eq_true, if_false] at hstep
        cases hstep
        refine ⟨?_, hint, hwf, ?_, ?_, hoc, hdone, hdirect⟩
        · rw [ha, hp]
        · intro _; exact hp ▸ rfl
        · intro h; exact ⟨rfl, (hdm h).2⟩
      · rw [hcl] at hstep
        simp at hstep
    | cons v ps => rw [hp] at hstep; cases hstep
  | consume =>
    unfold step at hstep
    cases hq : s.outQ with
    | nil => rw [hq] at hstep; cases hstep
    | cons v out1 =>
      rw [hq] at hstep
      cases hstep
      refine ⟨ha, ?_, hwf, hic, hdm, hoc, hdone, hdirect⟩
      have h1 : s.received ++ [v] ++ out1 ++ s.rb.contents
          = s.received ++ s.outQ ++ s.rb.contents := by
        rw [hq]; simp
      rw [← h1] at hint
      exact hint
  | recvDirect =>
    unfold step at hstep
    cases hm : s.mode <;> rw [hm] at hstep <;>
      (try (dsimp only at hstep; cases hstep))
    cases hq : s.inQ with
    | nil => rw [hq] at hstep; cases hstep
    | cons v in1 =>
      rw [hq] at hstep
      dsimp only at hstep
      cases hstep
      have hcd : s.rb.contents = [] := hdirect (Or.inl hm)
      refine ⟨?_, hint, hwf, hic, ?_, ?_, ?_, ?_⟩
      · rw [ha, hq, hm]; simp [heldList]
      · intro h; rcases h with h | h <;> cases h
      · intro h
        have := hoc h
        rw [hm] at this
        cases this
      · intro h; cases h
      · intro _; exact hcd
  | decideHeld direct =>
    unfold step at hstep
    cases hm : s.mode <;> rw [hm] at hstep <;>
      (try (dsimp only at hstep; cases hstep))
    case directHeld v =>
    have hcd : s.rb.contents = [] := hdirect (Or.inr ⟨v, hm⟩)
    have hocF : s.outClosed = false := by
      cases h : s.outClosed
      · rfl
      · have := hoc h
        rw [hm] at this
        cases this
    dsimp only at hstep
    split_ifs at hstep with hsend
    · cases hstep
      refine ⟨?_, ?_, hwf, hic, ?_, ?_, ?_, ?_⟩
      · rw [ha, hm]; simp [heldList]
      · rw [hcd] at hint ⊢
        have h1 := interleave_keep_append v hint
        simpa [List.append_assoc] using h1
      · intro h; rcases h with h | h <;> cases h
      · simp [hocF]
      · intro h; cases h
      · intro _; exact hcd
    · cases hstep
      apply sysInv_writeToBuf
      · rw [ha, hm]; simp [heldList]
      · exact hint
      · exact hwf
      · exact hic
      · exact hocF
  | recvInner =>
    unfold step at hstep
    cases hm : s.mode <;> rw [hm] at hstep <;>
      (try (dsimp only at hstep; cases hstep))
    cases hq : s.inQ with
    | nil => rw [hq] at hstep; cases hstep
    | cons v in1 =>
      rw [hq] at hstep
      dsimp only at hstep
      cases hstep
      have hocF : s.outClosed = false := by
        cases h : s.outClosed
        · rfl
        · have := hoc h
          rw [hm] at this
          cases this
      apply sysInv_writeToBuf
      · rw [ha, hq, hm]; simp [heldList]
      · exact hint
      · exact hwf
      · exact hic
      · exact hocF
  | closedDirect =>
    unfold step at hstep
    cases hm : s.mode <;> rw [hm] at hstep <;>
      (try (dsimp only at hstep; cases hstep))
    cases hcl : s.inClosed <;> rw [hcl] at hstep
    · dsimp only at hstep; cases hstep
    · cases hq : s.inQ with
      | nil =>
        rw [hq] at hstep
        dsimp only at hstep
        cases hstep
        refine ⟨?_, hint, hwf, ?_, ?_, ?_, ?_, ?_⟩
        · rw [ha, hm, hq]; simp [heldList]
        · intro _; exact hic hcl
        · intro _; exact ⟨rfl, rfl⟩
        · intro h
          have := hoc h
          rw [hm] at this
          cases this
        · intro h; cases h
        · intro h
          rcases h with h | ⟨v, h⟩ <;> cases h
      | cons v in1 => rw [hq] at hstep; cases hstep
  | closedInner =>
    unfold step at hstep
    cases hm : s.mode <;> rw [hm] at hstep <;>
      (try (dsimp only at hstep; cases hstep))
    cases hcl : s.inClosed <;> rw [hcl] at hstep
    · dsimp only at hstep; cases hstep
    · cases hq : s.inQ with
      | nil =>
        rw [hq] at hstep
        dsimp only at hstep
        cases hstep
        refine ⟨?_, hint, hwf, ?_, ?_, ?_, ?_, ?_⟩
        · rw [ha, hm, hq]; simp [heldList]
        · intro _; exact hic hcl
        · intro _; exact ⟨rfl, rfl⟩
        · intro h
          have := hoc h
          rw [hm] at this
          cases this
        · intro h; cases h
        · intro h
          rcases h with h | ⟨v, h⟩ <;> cases h
      | cons v in1 => rw [hq] at hstep; cases hstep
  | sendInner =>
    unfold step at hstep
    cases hm : s.mode <;> rw [hm] at hstep <;>
      (try (dsimp only at hstep; cases hstep))
    dsimp only at hstep
    split_ifs at hstep with hroom
    cases hpop : s.rb.pop with
    | none => rw [hpop] at hstep; cases hstep
    | some p =>
      obtain ⟨v, rb1⟩ := p
      rw [hpop] at hstep
      dsimp only at hstep
      cases hstep
      have hne : s.rb.r ≠ s.rb.w := by
        intro he
        rw [(RingBuf.pop_none_iff s.rb).mpr he] at hpop
        cases hpop
      rw [RingBuf.pop_some s.rb hne] at hpop
      simp only [Option.some.injEq, Prod.mk.injEq] at hpop
      have hwf1 : rb1.wf := hpop.2 ▸ RingBuf.wf_read s.rb hwf
      have hcons : s.rb.contents = v :: rb1.contents := by
        rw [← hpop.1, ← hpop.2]
        exact RingBuf.contents_read s.rb hwf hne
      have hrb2 : (if rb1.isEmpty ∧ rb1.initialSize < rb1.size
          then rb1.reset else rb1).contents = rb1.contents := by
        split_ifs with he
        · rw [RingBuf.contents_reset,
            (rb1.contents_eq_nil_iff hwf1).mpr ((rb1.isEmpty_iff).mp he.1)]
        · rfl
      have hwf2 : (if rb1.isEmpty ∧ rb1.initialSize < rb1.size
          then rb1.reset else rb1).wf := by
        split_ifs
        · exact RingBuf.wf_reset rb1 hwf1
        · exact hwf1
      refine ⟨?_, ?_, hwf2, hic, ?_, ?_, ?_, ?_⟩
      · rw [ha, hm]
      · rw [hrb2]
        have h1 : s.received ++ (s.outQ ++ [v]) ++ rb1.contents
            = s.received ++ s.outQ ++ s.rb.contents := by
          rw [hcons]; simp
        rw [h1]
        exact hint
      · intro h; rcases h with h | h <;> cases h
      · intro h
        have := hoc h
        rw [hm] at this
        cases this
      · intro h; cases h
      · intro h
        rcases h with h | ⟨u, h⟩ <;> cases h
  | exitInner =>
    unfold step at hstep
    cases hm : s.mode <;> rw [hm] at hstep <;>
      (try (dsimp only at hstep; cases hstep))
    dsimp only at hstep
    split_ifs at hstep with hemp
    · cases hstep
      have hcd : s.rb.contents = [] :=
        (s.rb.contents_eq_nil_iff hwf).mpr ((s.rb.isEmpty_iff).mp hemp)
      refine ⟨?_, hint, hwf, hic, ?_, ?_, ?_, ?_⟩
      · rw [ha, hm]; simp [heldList]
      · intro h; rcases h with h | h <;> cases h
      · intro h
        have := hoc h
        rw [hm] at this
        cases this
      · intro h; cases h
      · intro _; exact hcd
  | drainSend =>
    unfold step at hstep
    cases hm : s.mode <;> rw [hm] at hstep <;>
      (try (dsimp only at hstep; cases hstep))
    dsimp only at hstep
    split_ifs at hstep with hroom
    cases hpop : s.rb.pop with
    | none => rw [hpop] at hstep; cases hstep
    | some p =>
      obtain ⟨v, rb1⟩ := p
      rw [hpop] at hstep
      dsimp only at hstep
      cases hstep
      have hne : s.rb.r ≠ s.rb.w := by
        intro he
        rw [(RingBuf.pop_none_iff s.rb).mpr he] at hpop
        cases hpop
      rw [RingBuf.pop_some s.rb hne] at hpop
      simp only [Option.some.injEq, Prod.mk.injEq] at hpop
      have hwf1 : rb1.wf := hpop.2 ▸ RingBuf.wf_read s.rb hwf
      have hcons : s.rb.contents = v :: rb1.contents := by
        rw [← hpop.1, ← hpop.2]
        exact RingBuf.contents_read s.rb hwf hne
      refine ⟨?_, ?_, hwf1, hic, ?_, ?_, ?_, ?_⟩
      · rw [ha, hm]
      · have h1 : s.received ++ (s.outQ ++ [v]) ++ rb1.contents
            = s.received ++ s.outQ ++ s.rb.contents := by
          rw [hcons]; simp
        rw [h1]
        exact hint
      · intro _; exact hdm (Or.inl hm)
      · intro h
        have := hoc h
        rw [hm] at this
        cases this
      · intro h; cases h
      · intro h
        rcases h with h | ⟨u, h⟩ <;> cases h
  | finish =>
    unfold step at hstep
    cases hm : s.mode <;> rw [hm] at hstep <;>
      (try (dsimp only at hstep; cases hstep))
    dsimp only at hstep
    split_ifs at hstep with hemp
    · cases hstep
      have hcd : s.rb.contents = [] :=
        (s.rb.contents_eq_nil_iff hwf).mpr ((s.rb.isEmpty_iff).mp hemp)
      refine ⟨?_, ?_, RingBuf.wf_reset s.rb hwf, hic, ?_, ?_, ?_, ?_⟩
      · rw [ha, hm]; simp [heldList]
      · rw [RingBuf.contents_reset, ← hcd]
        exact hint
      · intro _; exact hdm (Or.inl hm)
      · intro _; rfl
      · intro _; exact RingBuf.contents_reset s.rb
      · intro h
        rcases h with h | ⟨u, h⟩ <;> cases h

theorem sysInv_runSys [Inhabited T] (inputs : List T) (inCap outCap : Nat)
    (cs : List Choice) (s : Sys T) (hinv : SysInv inputs s) :
    SysInv inputs (runSys inCap outCap s cs) := by
  induction cs generalizing s with
  | nil => exact hinv
  | cons c cs ih =>
    unfold runSys
    cases hs : step inCap outCap c s with
    | some s1 => exact ih s1 (sysInv_step hinv hs)
    | none => exact ih s hinv

theorem sysInv_init [Inhabited T] (inputs : List T) (rb0 : RingBuf T)
    (hwf : rb0.wf) (hemp : rb0.contents = []) :
    SysInv inputs (initSys inputs rb0) := by
  refine ⟨by simp [initSys, heldList], ?_, hwf, by simp [initSys],
    by simp [initSys], by simp [initSys], by simp [initSys, hemp],
    by simp [initSys, hemp]⟩
  simpa [initSys, hemp] using (Interleave.nil : Interleave ([] : List T) [] [])

/-- C1: global FIFO order of the pump. For any input sequence, any initial
empty well-formed ring buffer, any channel capacities and any scheduling of
producer, consumer and pump transitions, once the output endpoint has been
closed and fully drained the received sequence and the discarded sequence
interleave back to exactly the input sequence: the output equals the input
with the discarded elements removed, in the original relative order,
whichever path (direct or buffered) each value took. -/
theorem c1_global_fifo_order [Inhabited T] (inputs : List T) (rb0 : RingBuf T)
    (inCap outCap : Nat) (cs : List Choice)
    (hwf : rb0.wf) (hemp : rb0.contents = [])
    (hclosed : (runSys inCap outCap (initSys inputs rb0) cs).outClosed = true)
    (hdrained : (runSys inCap outCap (initSys inputs rb0) cs).outQ = []) :
    Interleave (runSys inCap outCap (initSys inputs rb0) cs).received
      (runSys inCap outCap (initSys inputs rb0) cs).discarded inputs := by
  obtain ⟨ha, hint, hwfF, hic, hdm, hoc, hdone, hdirect⟩ :=
    sysInv_runSys inputs inCap outCap cs _ (sysInv_init inputs rb0 hwf hemp)
  set f := runSys inCap outCap (initSys inputs rb0) cs with hf
  have hmode : f.mode = .done := hoc hclosed
  have hcont : f.rb.contents = [] := hdone hmode
  have hinq : f.inQ = [] := (hdm (Or.inr hmode)).2
  have hprod : f.producers = [] := hic (hdm (Or.inr hmode)).1
  have hheld : heldList f.mode = [] := by rw [hmode]; rfl
  rw [ha, hheld, hinq, hprod]
  simp only [List.append_nil]
  rw [hdrained, hcont] at hint
  simpa using hint

theorem RingBuf.read_discards (s : RingBuf T) [Inhabited T] :
    (s.read).1.discards = s.discards := by
  unfold RingBuf.read
  split_ifs <;> rfl

theorem applyOp_discards_of_maxSize_zero [Inhabited T] (s : RingBuf T)
    (op : Op T) (h0 : s.maxSize = 0) :
    (applyOp s op).discards = s.discards := by
  cases op with
  | write v =>
    exact RingBuf.write_discards_of_not_drop s v
      (by simp [RingBuf.writeDrops, h0])
  | read => exact RingBuf.read_discards s
  | pop =>
    show (match s.pop with
      | some (_, s1) => s1
      | none => s).discards = s.discards
    cases hp : s.pop with
    | none => rfl
    | some p =>
      obtain ⟨v, s1⟩ := p
      have hne : s.r ≠ s.w := by
        intro he
        rw [(RingBuf.pop_none_iff s).mpr he] at hp
        cases hp
      rw [RingBuf.pop_some s hne] at hp
      simp only [Option.some.injEq, Prod.mk.injEq] at hp
      rw [← hp.2]
      exact RingBuf.read_discards s
  | peek => rfl
  | reset => rfl
  | setMaxSize n =>
    show (RingBuf.setMaxSize s n).1.discards = s.discards
    unfold RingBuf.setMaxSize
    dsimp only
    split_ifs <;> rfl
  | setMaxCapacity n =>
    show (RingBuf.setMaxCapacity s n).1.discards = s.discards
    unfold RingBuf.setMaxCapacity
    dsimp only
    split_ifs <;> rfl
  | setOnDiscards b =>
    show (RingBuf.setOnDiscards s b).discards = s.discards
    unfold RingBuf.setOnDiscards
    split_ifs <;> rfl

theorem applyOp_maxSize_of_no_setter [Inhabited T] (s : RingBuf T) (op : Op T) :
    (∀ n, op ≠ Op.setMaxSize n) → (∀ n, op ≠ Op.setMaxCapacity n) →
    (applyOp s op).maxSize = s.maxSize := by
  intro h1 h2
  cases op with
  | write v => exact (RingBuf.write_frame s v).1
  | read =>
    show (s.read).1.maxSize = s.maxSize
    unfold RingBuf.read
    split_ifs <;> rfl
  | pop =>
    show (match s.pop with
      | some (_, s1) => s1
      | none => s).maxSize = s.maxSize
    cases hp : s.pop with
    | none => rfl
    | some p =>
      obtain ⟨v, s1⟩ := p
      have hne : s.r ≠ s.w := by
        intro he
        rw [(RingBuf.pop_none_iff s).mpr he] at hp
        cases hp
      rw [RingBuf.pop_some s hne] at hp
      simp only [Option.some.injEq, Prod.mk.injEq] at hp
      rw [← hp.2]
      show (s.read).1.maxSize = s.maxSize
      unfold RingBuf.read
      split_ifs <;> rfl
  | peek => rfl
  | reset => rfl
  | setMaxSize n => exact absurd rfl (h1 n)
  | setMaxCapacity n => exact absurd rfl (h2 n)
  | setOnDiscards b =>
    show (RingBuf.setOnDiscards s b).maxSize = s.maxSize
    unfold RingBuf.setOnDiscards
    split_ifs <;> rfl

/-- Padding an appended replicate back down to the requested length. -/
theorem take_append_replicate {α : Type} (X : List α) (m : Nat) (d : α)
    (hm : X.length ≤ m) :
    (X ++ List.replicate m d).take m = X ++ List.replicate (m - X.length) d := by
  rw [List.take_append_eq_append_take, List.take_of_length_le hm,
      List.take_replicate, Nat.min_eq_left (by omega)]

/-- C2: Write either drops or stores. When maxSize is positive and Len has
reached it, Write only bumps discards by one and hands the incoming value to
the onDiscards callback exactly when one is installed, leaving buf, r, w and
size (the whole rest of the state) unchanged; otherwise it stores the value
at index w, advances w modulo size, emits no callback, and grows exactly
when the advanced w meets r. -/
theorem c2_write_contract (s : RingBuf T) [Inhabited T] (v : T) (h : s.wf) :
    (0 < s.maxSize ∧ s.maxSize ≤ s.len →
      (s.write v).1 = { s with discards := s.discards + 1 } ∧
      (s.write v).2 = (if s.onDiscards then [v] else []))
    ∧ (¬ (0 < s.maxSize ∧ s.maxSize ≤ s.len) →
      (s.write v).2 = [] ∧
      (s.write v).1 =
        (if (s.w + 1) % s.size = s.r then
          ({ s with buf := s.buf.set s.w v,
                    w := (s.w + 1) % s.size } : RingBuf T).grow
         else { s with buf := s.buf.set s.w v, w := (s.w + 1) % s.size })) := by
  obtain ⟨hb, hr, hw, hs, hi⟩ := h
  have hmod : (s.w + 1) % s.size = (if s.w + 1 = s.size then 0 else s.w + 1) := by
    split_ifs with h1
    · rw [h1, Nat.mod_self]
    · exact Nat.mod_eq_of_lt (by omega)
  constructor
  · intro hd
    exact s.write_drop_state v hd
  · intro hnd
    refine ⟨s.write_store_events v hnd, ?_⟩
    unfold RingBuf.write
    rw [if_neg (show ¬ s.writeDrops from hnd)]
    dsimp only
    rw [hmod]

/-- Witness for C2 at a concrete buffer: a non-discarding write emits no
callback invocation. -/
theorem c2_witness : ((NewRingBuffer Nat 2 none).write 5).2 = [] :=
  ((c2_write_contract (NewRingBuffer Nat 2 none) 5 (by decide)).2 (by decide)).1

/-- C3: grow doubles the capacity below 1024 and multiplies by 5/4 above,
copies the stored values starting at r (wrapping) to the front of a fresh
zero-padded array, sets r to 0 and w to the old size, and preserves the
stored sequence: afterwards the logical contents are exactly the old backing
array rotated to start at r. -/
theorem c3_grow_contract (s : RingBuf T) [Inhabited T] (h : s.wf) :
    (s.grow).size = (if s.size < 1024 then s.size * 2 else s.size + s.size / 4)
    ∧ (s.grow).r = 0
    ∧ (s.grow).w = s.size
    ∧ (s.grow).buf
        = (s.buf.drop s.r ++ s.buf.take s.r)
          ++ List.replicate ((s.grow).size - s.size) default
    ∧ (s.grow).contents = s.buf.drop s.r ++ s.buf.take s.r := by
  have hrot := s.rot_length h
  have hc := s.contents_grow h
  obtain ⟨hb, hr, hw, hs, hi⟩ := h
  have hgt := s.grow_size_gt (T := T) (by omega)
  refine ⟨rfl, rfl, rfl, ?_, hc⟩
  have hXlen : (s.buf.drop s.r ++ s.buf.take s.r).length = s.size := hrot
  have h2 := take_append_replicate (s.buf.drop s.r ++ s.buf.take s.r)
    (s.grow).size (default : T) (by rw [hXlen]; omega)
  rw [hXlen] at h2
  exact h2

/-- Witness for C3 at a concrete buffer holding one value. -/
theorem c3_witness :
    ((((NewRingBuffer Nat 2 none).write 7).1.grow).size = 4)
    ∧ ((((NewRingBuffer Nat 2 none).write 7).1.grow).contents = [7, 0]) := by
  have h := c3_grow_contract ((NewRingBuffer Nat 2 none).write 7).1 (by decide)
  exact ⟨by rw [h.1]; decide, by rw [h.2.2.2.2]; decide⟩

/-- C6: Read fails (ErrIsEmpty, modelled as none) exactly when r equals w,
leaving the state unchanged in that case, and otherwise returns the value at
index r and advances r modulo size. -/
theorem c6_read_contract (s : RingBuf T) [Inhabited T] (h : s.wf) :
    ((s.read).2 = none ↔ s.r = s.w)
    ∧ (s.r = s.w → (s.read).1 = s)
    ∧ (s.r ≠ s.w →
        (s.read).2 = some (s.buf.getD s.r default)
        ∧ (s.read).1 = { s with r := (s.r + 1) % s.size }) := by
  obtain ⟨hb, hr, hw, hs, hi⟩ := h
  have hmod : (s.r + 1) % s.size = (if s.r + 1 = s.size then 0 else s.r + 1) := by
    split_ifs with h1
    · rw [h1, Nat.mod_self]
    · exact Nat.mod_eq_of_lt (by omega)
  refine ⟨?_, ?_, ?_⟩
  · by_cases he : s.r = s.w
    · rw [RingBuf.read_empty s he]
      simp [he]
    · rw [RingBuf.read_some s he]
      simp [he]
  · intro he
    rw [RingBuf.read_empty s he]
  · intro he
    rw [RingBuf.read_some s he]
    exact ⟨rfl, by rw [hmod]⟩

/-- Witness for C6 at a concrete buffer: reading the fresh buffer reports
emptiness. -/
theorem c6_witness : (((NewRingBuffer Nat 2 none).read).2 = none) :=
  (c6_read_contract (NewRingBuffer Nat 2 none) (by decide)).1.mpr (by decide)

/-- C9: Pop and Peek panic (modelled as none) exactly on the empty buffer
r = w; on a non-empty buffer Pop returns precisely the value and state Read
produces and Peek returns the value at r, by construction without touching
the state. -/
theorem c9_pop_peek_contract (s : RingBuf T) [Inhabited T] :
    (s.pop = none ↔ s.r = s.w)
    ∧ (s.peek = none ↔ s.r = s.w)
    ∧ (s.r ≠ s.w →
        s.pop = some (s.buf.getD s.r default, (s.read).1)
        ∧ (s.read).2 = some (s.buf.getD s.r default)
        ∧ s.peek = some (s.buf.getD s.r default)) := by
  refine ⟨s.pop_none_iff, s.peek_none_iff, ?_⟩
  intro he
  refine ⟨s.pop_some he, ?_, ?_⟩
  · rw [RingBuf.read_some s he]
  · unfold RingBuf.peek
    rw [if_neg he]

/-- Witness for C9 at a concrete non-empty buffer. -/
theorem c9_witness : (((NewRingBuffer Nat 2 none).write 7).1.peek = some 7) := by
  have h := (c9_pop_peek_contract ((NewRingBuffer Nat 2 none).write 7).1).2.2
    (by decide)
  rw [h.2.2]
  decide

/-- C10: Reset only rewinds the indices, capacity and backing array
(r = w = 0, size = initialSize, fresh zeroed array); the discards counter,
the maxSize ceiling, the initialSize field and the onDiscards callback all
survive it. -/
theorem c10_reset_frame (s : RingBuf T) [Inhabited T] :
    (s.reset).discards = s.discards
    ∧ (s.reset).maxSize = s.maxSize
    ∧ (s.reset).initialSize = s.initialSize
    ∧ (s.reset).onDiscards = s.onDiscards
    ∧ (s.reset).r = 0
    ∧ (s.reset).w = 0
    ∧ (s.reset).size = s.initialSize
    ∧ (s.reset).buf = List.replicate s.initialSize default :=
  ⟨rfl, rfl, rfl, rfl, rfl, rfl, rfl, rfl⟩

/-- C7: in every state reachable from a fresh buffer through Write, Read,
Pop, Peek, Reset and the max-size setters, r = w exactly when the buffer is
logically empty, both indices stay inside the capacity, the capacity stays
at least 2, and a non-discarding Write whose advanced w would meet r grows
the capacity instead of reporting full. -/
theorem c7_never_full_invariant [Inhabited T] (s : RingBuf T)
    (h : Reachable s) :
    (s.r = s.w ↔ s.len = 0) ∧ s.r < s.size ∧ s.w < s.size ∧ 2 ≤ s.size ∧
    (∀ v : T, ¬ (0 < s.maxSize ∧ s.maxSize ≤ s.len) →
      (if s.w + 1 = s.size then 0 else s.w + 1) = s.r →
      s.size < (s.write v).1.size) := by
  have hwf := wf_reachable s h
  have hiff := s.len_eq_zero_iff hwf
  obtain ⟨hb, hr, hw, hs, hi⟩ := hwf
  refine ⟨hiff.symm, hr, hw, hs, ?_⟩
  intro v hnd hg
  unfold RingBuf.write
  rw [if_neg (show ¬ s.writeDrops from hnd)]
  dsimp only
  rw [if_pos hg]
  exact RingBuf.grow_size_gt _ (by omega)

/-- Witness for C7 at a concrete reachable state. -/
theorem c7_witness :
    ((NewRingBuffer Nat 3 none).r = (NewRingBuffer Nat 3 none).w
      ↔ (NewRingBuffer Nat 3 none).len = 0)
    ∧ (NewRingBuffer Nat 3 none).r < (NewRingBuffer Nat 3 none).size :=
  ⟨(c7_never_full_invariant _ (Reachable.newRB 3 none)).1,
   (c7_never_full_invariant _ (Reachable.newRB 3 none)).2.1⟩

/-- C8: as long as the ceiling stays disabled (maxSize 0 at every prefix of
the run), the discards counter stays 0 after every operation, however many
values are written relative to reads. -/
theorem c8_unbounded_no_discards [Inhabited T] (s0 : RingBuf T)
    (ops : List (Op T)) (hd0 : s0.discards = 0)
    (hms : ∀ k, k ≤ ops.length → (runOps s0 (ops.take k)).maxSize = 0) :
    ∀ k, k ≤ ops.length → (runOps s0 (ops.take k)).discards = 0 := by
  induction ops generalizing s0 with
  | nil =>
    intro k _
    simpa [runOps] using hd0
  | cons op ops ih =>
    intro k hk
    have h0 : s0.maxSize = 0 := by simpa [runOps] using hms 0 (by omega)
    cases k with
    | zero => simpa [runOps] using hd0
    | succ k =>
      have hd1 : (applyOp s0 op).discards = 0 := by
        rw [applyOp_discards_of_maxSize_zero s0 op h0]
        exact hd0
      have hms1 : ∀ j, j ≤ ops.length →
          (runOps (applyOp s0 op) (ops.take j)).maxSize = 0 := by
        intro j hj
        have := hms (j + 1) (by simpa using Nat.succ_le_succ hj)
        simpa [runOps, List.take_succ_cons] using this
      have hk' : k ≤ ops.length := by
        simp only [List.length_cons] at hk
        omega
      have := ih (applyOp s0 op) hd1 hms1 k hk'
      simpa [runOps, List.take_succ_cons] using this

/-- Witness for C8: a concrete unbounded run with more writes than reads
never discards. -/
theorem c8_witness :
    (runOps (NewRingBuffer Nat 2 none)
      (([Op.write 5, Op.write 6, Op.write 7, Op.read] : List (Op Nat)).take 4)
      ).discards = 0 :=
  c8_unbounded_no_discards (NewRingBuffer Nat 2 none)
    [Op.write 5, Op.write 6, Op.write 7, Op.read]
    (by decide) (by decide) 4 (by decide)

/-- C4 counterexample: the claim says a positive n within range makes the
setter ceiling exactly n, but SetMaxCapacity on a buffer of initial size 2
called with 5 yields ceiling 7 (initialSize + n), not 5. -/
theorem c4_counterexample :
    ¬ ((NewRingBufferOf Nat 2 none).map
        (fun b => (RingBuf.setMaxCapacity b 5).2) = some 5) := by
  decide

/-- C4 amended: SetMaxSize with n = 0 removes the ceiling, with n at least
minBufferSize 2 sets exactly n, and with n = 1 or negative n changes
nothing; SetMaxCapacity with n = 0 removes the ceiling, with any positive n
sets initialSize + n (not n itself), and with negative n changes nothing;
both return the resulting ceiling. -/
theorem c4_amended_setters (s : RingBuf T) (n : Int) :
    (n = 0 → (s.setMaxSize n).1.maxSize = 0 ∧ (s.setMaxCapacity n).1.maxSize = 0)
    ∧ (2 ≤ n → (s.setMaxSize n).1.maxSize = n.toNat)
    ∧ (n = 1 → (s.setMaxSize n).1 = s)
    ∧ (n < 0 → (s.setMaxSize n).1 = s ∧ (s.setMaxCapacity n).1 = s)
    ∧ (0 < n → (s.setMaxCapacity n).1.maxSize = s.initialSize + n.toNat)
    ∧ (s.setMaxSize n).2 = (s.setMaxSize n).1.maxSize
    ∧ (s.setMaxCapacity n).2 = (s.setMaxCapacity n).1.maxSize := by
  refine ⟨?_, ?_, ?_, ?_, ?_, rfl, rfl⟩
  · intro h
    subst h
    constructor
    · show (RingBuf.setMaxSize s 0).1.maxSize = 0
      simp [RingBuf.setMaxSize]
    · show (RingBuf.setMaxCapacity s 0).1.maxSize = 0
      simp [RingBuf.setMaxCapacity]
  · intro h
    show (RingBuf.setMaxSize s n).1.maxSize = n.toNat
    unfold RingBuf.setMaxSize minBufferSize
    rw [if_neg (by omega), if_pos (by omega)]
  · intro h
    subst h
    show (RingBuf.setMaxSize s 1).1 = s
    unfold RingBuf.setMaxSize minBufferSize
    rw [if_neg (by omega), if_neg (by omega)]
  · intro h
    constructor
    · show (RingBuf.setMaxSize s n).1 = s
      unfold RingBuf.setMaxSize minBufferSize
      rw [if_neg (by omega), if_neg (by omega)]
    · show (RingBuf.setMaxCapacity s n).1 = s
      unfold RingBuf.setMaxCapacity
      rw [if_neg (by omega), if_neg (by omega)]
  · intro h
    show (RingBuf.setMaxCapacity s n).1.maxSize = s.initialSize + n.toNat
    unfold RingBuf.setMaxCapacity
    by_cases h0 : n = 0
    · omega
    · rw [if_neg h0, if_pos h]

/-- Witness for C4 at a concrete buffer and argument. -/
theorem c4_witness : ((NewRingBuffer Nat 2 none).setMaxSize 5).1.maxSize = 5 :=
  (c4_amended_setters (NewRingBuffer Nat 2 none) 5).2.1 (by decide)

/-- C5 counterexample: the claim says construction never panics for any
initialSize, but NewRingBufferOf with initialSize 0 panics (modelled as
none). -/
theorem c5_counterexample : NewRingBufferOf Nat 0 none = none := by
  decide

/-- C5 amended: NewRingBuffer clamps any initial size below 2 up to 2 and
never panics, treats an absent max argument or one below 2 (zero, negative,
or 1) as unbounded, and takes a max argument of at least 2 verbatim.
NewRingBufferOf instead panics when the initial size is not positive, clamps
1 to 2, treats an absent, zero or negative max argument as unbounded, and
turns a positive max argument m into the ceiling m + clamped initial size. -/
theorem c5_amended_construction [Inhabited T] (isize m : Int) :
    (isize < 2 → (NewRingBuffer T isize none).size = 2
      ∧ (NewRingBuffer T isize (some m)).size = 2)
    ∧ (2 ≤ isize → (NewRingBuffer T isize none).size = isize.toNat
      ∧ (NewRingBuffer T isize (some m)).size = isize.toNat)
    ∧ (NewRingBuffer T isize none).maxSize = 0
    ∧ (m < 2 → (NewRingBuffer T isize (some m)).maxSize = 0)
    ∧ (2 ≤ m → (NewRingBuffer T isize (some m)).maxSize = m.toNat)
    ∧ (isize ≤ 0 → NewRingBufferOf T isize none = none
      ∧ NewRingBufferOf T isize (some m) = none)
    ∧ (0 < isize →
        (NewRingBufferOf T isize none).map (fun b => RingBuf.size b)
          = some (if isize = 1 then 2 else isize.toNat)
        ∧ (NewRingBufferOf T isize none).map (fun b => RingBuf.maxSize b)
          = some 0
        ∧ (m ≤ 0 → (NewRingBufferOf T isize (some m)).map
            (fun b => RingBuf.maxSize b) = some 0)
        ∧ (0 < m → (NewRingBufferOf T isize (some m)).map
            (fun b => RingBuf.maxSize b)
            = some ((m + (if isize = 1 then 2 else isize)).toNat))) := by
  refine ⟨?_, ?_, ?_, ?_, ?_, ?_, ?_⟩
  · intro h
    constructor <;>
      (simp only [NewRingBuffer, minBufferSize]; rw [if_pos (by omega)]; rfl)
  · intro h
    constructor <;>
      (simp only [NewRingBuffer, minBufferSize]; rw [if_neg (by omega)])
  · rfl
  · intro h
    simp only [NewRingBuffer, minBufferSize]
    rw [if_neg (by omega)]
  · intro h
    simp only [NewRingBuffer, minBufferSize]
    rw [if_pos (by omega)]
  · intro h
    constructor <;> (simp only [NewRingBufferOf]; rw [if_pos h])
  · intro h
    refine ⟨?_, ?_, ?_, ?_⟩
    · simp only [NewRingBufferOf]
      rw [if_neg (by omega)]
      by_cases h1 : isize = 1
      · rw [if_pos h1, if_pos h1]
        rfl
      · rw [if_neg h1, if_neg h1]
        rfl
    · simp only [NewRingBufferOf]
      rw [if_neg (by omega)]
      rfl
    · intro hm
      simp only [NewRingBufferOf]
      rw [if_neg (by omega)]
      show some (if 0 < m then _ else 0) = some 0
      rw [if_neg (by omega)]
    · intro hm
      simp only [NewRingBufferOf]
      rw [if_neg (by omega)]
      show some (if 0 < m then (m + (if isize = 1 then 2 else isize)).toNat
        else 0) = _
      rw [if_pos hm]

/-- Witness for C5 at concrete arguments: initial size 1 clamps to 2 and a
max argument of 1 on the generic constructor is ignored (unbounded). -/
theorem c5_witness :
    (NewRingBuffer Nat 1 none).size = 2
    ∧ (NewRingBuffer Nat 2 (some 1)).maxSize = 0 :=
  ⟨((c5_amended_construction (T := Nat) 1 0).1 (by decide)).1,
   (c5_amended_construction (T := Nat) 2 1).2.2.2.1 (by decide)⟩

/-- Witness for C1: a concrete three-value run through both the direct and
the buffered path, with the input closed and the output drained; the
received sequence interleaves with the (empty) discarded sequence back to
the input. -/
theorem c1_witness :
    Interleave
      (runSys 2 1 (initSys [1, 2, 3] (NewRingBuffer Nat 2 none))
        [Choice.produce, Choice.recvDirect, Choice.decideHeld true,
         Choice.produce, Choice.recvDirect, Choice.decideHeld true,
         Choice.produce, Choice.closeIn, Choice.consume, Choice.recvInner,
         Choice.sendInner, Choice.consume, Choice.sendInner,
         Choice.closedInner, Choice.finish, Choice.consume]).received
      (runSys 2 1 (initSys [1, 2, 3] (NewRingBuffer Nat 2 none))
        [Choice.produce, Choice.recvDirect, Choice.decideHeld true,
         Choice.produce, Choice.recvDirect, Choice.decideHeld true,
         Choice.produce, Choice.closeIn, Choice.consume, Choice.recvInner,
         Choice.sendInner, Choice.consume, Choice.sendInner,
         Choice.closedInner, Choice.finish, Choice.consume]).discarded
      [1, 2, 3] :=
  c1_global_fifo_order [1, 2, 3] (NewRingBuffer Nat 2 none) 2 1
    [Choice.produce, Choice.recvDirect, Choice.decideHeld true,
     Choice.produce, Choice.recvDirect, Choice.decideHeld true,
     Choice.produce, Choice.closeIn, Choice.consume, Choice.recvInner,
     Choice.sendInner, Choice.consume, Choice.sendInner,
     Choice.closedInner, Choice.finish, Choice.consume]
    (by decide) (by decide) (by decide) (by decide)

example : (NewRingBuffer Nat 1 none).size = 2 := by decide
example : (NewRingBufferOf Nat 0 none) = none := by decide
example :
    ((NewRingBuffer Nat 2 none).write 7).1.contents = [7] := by decide
example :
    (((NewRingBuffer Nat 2 none).write 7).1.write 8).1.contents = [7, 8] := by
  decide
example :
    ((((NewRingBuffer Nat 2 none).write 7).1.write 8).1.write 9).1.contents
      = [7, 8, 9] := by decide
example :
    (((NewRingBuffer Nat 2 none).write 7).1.write 8).1.size = 4 := by decide

end Chanx
